import Mathlib

/-!
Verification of the frame-extraction core of fylvur (Rust sources
`src/math.rs` and `src/video.rs`), via a shallow embedding.

Modelling conventions, chosen to match the Rust build that ships
(64-bit target, release profile):
* `usize` values are `Nat`; results of `usize` additions, subtractions
  and multiplications are reduced modulo `2^64` (two's-complement wrap),
  written with `uw` / `uwsub`.
* `u32` values are `Nat`; wrapping results are reduced modulo `2^32`
  with `w32`.
* `i32` values are `Int`; wrapping results go through `Int.bmod _ (2^32)`,
  which lands in `[-2^31, 2^31)` exactly like two's-complement wrap.
* Operations that can panic (slice indexing out of range, division by
  zero, `clone_from_slice` length mismatch, `i32::MIN / -1`) are modelled
  in `Option`: `none` is a panic.
* `f32` appears only in `to_fixed_point`; an `i32` converted to `f32` is
  rounded to a 24-bit significand with ties to even (`roundF32`), and the
  subsequent division by `2^n` and truncating cast back to integer are
  exact, so the whole function stays in integer arithmetic.
-/

namespace Fylvur

set_option maxRecDepth 8000

/-- Modulus of `u32` arithmetic. -/
def U32 : Nat := 4294967296

/-- Modulus of `usize` arithmetic on the 64-bit target. -/
def U64 : Nat := 18446744073709551616

/-- Result of a wrapping `usize` addition or multiplication. -/
def uw (n : Nat) : Nat := n % U64

/-- Wrapping `usize` subtraction `a - b` (both arguments below `2^64`). -/
def uwsub (a b : Nat) : Nat := (a + U64 - b) % U64

/-- Result of a wrapping `u32` addition or multiplication. -/
def w32 (n : Nat) : Nat := n % U32

/-- Result of a wrapping `i32` addition: `a + b` wrapped into `[-2^31, 2^31)`. -/
def iadd (a b : Int) : Int := Int.bmod (a + b) U32

/-- Result of a wrapping `i32` multiplication: `a * b` wrapped into `[-2^31, 2^31)`. -/
def imul (a b : Int) : Int := Int.bmod (a * b) U32

/-- Cast `usize -> i32`: keep the low 32 bits, reinterpreted as signed. -/
def i32ofUsize (n : Nat) : Int := Int.bmod (n : Int) U32

/-- Cast `i32 -> usize`: sign-extend to 64 bits and reinterpret as unsigned. -/
def usizeOfI32 (x : Int) : Nat := (x % (U64 : Int)).toNat

/-- Checked `i32` division: Rust `/` truncates toward zero and panics on a
zero divisor or on `i32::MIN / -1`. -/
def i32div (a b : Int) : Option Int :=
  if b = 0 ∨ (a = -2147483648 ∧ b = -1) then none else some (Int.tdiv a b)

/-- Rust slice indexing `data[a..b]`: panics (`none`) unless `a ≤ b ≤ len`. -/
def sliceRange (data : List Nat) (a b : Nat) : Option (List Nat) :=
  if a ≤ b ∧ b ≤ data.length then some ((data.drop a).take (b - a)) else none

/-- Checked write `dst[i] = v`: panics (`none`) when `i` is out of range. -/
def wrByte (dst : List Nat) (i : Nat) (v : Nat) : Option (List Nat) :=
  if i < dst.length then some (dst.set i v) else none

/-! ### math.rs: fixed-point conversion (`to_fixed_point`, `parse_display_matrix`) -/

/-- Floor of the base-2 logarithm, by structural recursion on a fuel
argument so that it reduces inside the kernel; `log2fuel f n` is exact
for `n < 2^f`. -/
def log2fuel : Nat → Nat → Nat
  | 0, _ => 0
  | f + 1, n => if n ≤ 1 then 0 else log2fuel f (n / 2) + 1

/-- Rounding of a nonnegative integer to the nearest `f32`-representable
integer (24-bit significand, ties to even); identity below `2^24`. -/
def roundSig (a : Nat) : Nat :=
  if a < 16777216 then a
  else
    let k := log2fuel 64 a + 1 - 24
    let m := a / 2 ^ k
    let r := a % 2 ^ k
    let half := 2 ^ (k - 1)
    let m' := if half < r ∨ (r = half ∧ m % 2 = 1) then m + 1 else m
    m' * 2 ^ k

/-- The value of `x as f32` for an `i32` value `x` (exact for all `i32`,
since `|x| ≤ 2^31 < 2^128`): round the magnitude to a 24-bit significand. -/
def roundF32 (x : Int) : Int := x.sign * (roundSig x.natAbs : Int)

/-- math.rs `to_fixed_point(x, n) = ((x as f32) / (1 << n) as f32) as i32`.
The division by `2^n` is exact in `f32` (it only shifts the exponent and
cannot underflow for `n ≤ 30`, `|x| ≥ 1`), and the final cast truncates
toward zero without saturating, so the result is the truncated quotient of
the `f32`-rounded argument. -/
def to_fixed_point (x : Int) (n : Nat) : Int := Int.tdiv (roundF32 x) (2 ^ n)

/-- `i32::from_ne_bytes` on the little-endian build target. -/
def i32_from_ne_bytes (b0 b1 b2 b3 : Nat) : Int :=
  Int.bmod ((b0 + 256 * b1 + 65536 * b2 + 16777216 * b3 : Nat) : Int) U32

/-- One iteration body of the `parse_display_matrix` loop for cell `k`:
slice `bytes[k*4..k*4+4]` (panicking when out of range), convert, and
scale by `2^30` for cells 2, 5, 8 and by `2^16` otherwise.  The `Err`
branch of the Rust `match` fires only when the chunk length is not 4,
which slice indexing has already guaranteed; it is kept for fidelity and
carries the failed byte range. -/
def parseCell (bytes : List Nat) (k : Nat) : Option (Except (Nat × Nat) Int) :=
  match sliceRange bytes (k * 4) (k * 4 + 4) with
  | none => none
  | some chunk =>
    match chunk with
    | [b0, b1, b2, b3] =>
      let value := i32_from_ne_bytes b0 b1 b2 b3
      some (Except.ok (if k = 2 ∨ k = 5 ∨ k = 8 then
        to_fixed_point value 30 else to_fixed_point value 16))
    | _ => some (Except.error (k * 4, k * 4 + 4))

/-- The `parse_display_matrix` loop: parse the next `n` cells starting at
cell `k`, appending to the accumulator; `none` is a panic and
`Except.error` the (unreachable) conversion failure of the Rust source. -/
def parseCells (bytes : List Nat) : List Int → Nat → Nat → Option (Except (Nat × Nat) (List Int))
  | acc, _, 0 => some (Except.ok acc)
  | acc, k, n + 1 =>
    match parseCell bytes k with
    | none => none
    | some (Except.error e) => some (Except.error e)
    | some (Except.ok cell) => parseCells bytes (acc ++ [cell]) (k + 1) n

/-- math.rs `parse_display_matrix`: 9 cells of 4 bytes each. -/
def parse_display_matrix (bytes : List Nat) : Option (Except (Nat × Nat) (List Int)) :=
  parseCells bytes [] 0 9

/-! ### math.rs: `rotate_frame` -/

/-- math.rs `PX_BYTES`. -/
def PX_BYTES : Nat := 4

/-- The destructured transform matrix of `rotate_frame`:
`let [a, b, u, c, d, v, x, y, w] = transform`. -/
structure Transform where
  a : Int
  b : Int
  u : Int
  c : Int
  d : Int
  v : Int
  x : Int
  y : Int
  w : Int
deriving DecidableEq

/-- Tail of the byte-copy loop: copy `dst[dBase + c] = src[sBase + c]`
for the `n` offsets `c, c+1, ...`, in order, with Rust's panics on
out-of-range reads or writes. -/
def copyGo (src : List Nat) (sBase dBase : Nat) : List Nat → Nat → Nat → Option (List Nat)
  | dst, _, 0 => some dst
  | dst, c, n + 1 =>
    match src.get? (uw (sBase + c)) with
    | none => none
    | some v =>
      match wrByte dst (uw (dBase + c)) v with
      | none => none
      | some dst => copyGo src sBase dBase dst (c + 1) n

/-- Copy `n` bytes `dst[dBase + c] = src[sBase + c]` for `c = 0 .. n-1`
in order, with Rust's panics on out-of-range reads or writes. -/
def copyBytes (src dst : List Nat) (sBase dBase : Nat) (n : Nat) : Option (List Nat) :=
  copyGo src sBase dBase dst 0 n

/-- The homogeneous denominator `z = u*p + v*q + w` computed by
`rotate_frame` at linear pixel index `i`, with `i32` wrapping arithmetic
and `p = (i % src_width) as i32`, `q = (i / src_width) as i32`. -/
def zAt (t : Transform) (srcW : Nat) (i : Nat) : Int :=
  iadd (iadd (imul t.u (i32ofUsize (i % srcW))) (imul t.v (i32ofUsize (i / srcW)))) t.w

/-- The guarded write of `rotate_frame` at source pixel `i` and linear
destination index `di`: `no_overflow = (di == 0 || usize::MAX / di >=
PX_BYTES)`, and the 4-byte pixel copy happens only when additionally
`di * PX_BYTES < dst_data.len()`; otherwise the pixel is silently
skipped. -/
def rotWrite (srcData : List Nat) (dst : List Nat) (i di : Nat) : Option (List Nat) :=
  if (di = 0 ∨ 4 ≤ (U64 - 1) / di) ∧ uw (di * PX_BYTES) < dst.length then
    copyBytes srcData dst (uw (i * PX_BYTES)) (uw (di * PX_BYTES)) PX_BYTES
  else some dst

/-- One iteration of the `rotate_frame` pixel loop at index `i`: with
`p = (i % src_width) as i32` and `q = (i / src_width) as i32`, compute
`dp = (a*p + c*q + x) / z` and `dq = (b*p + d*q + y) / z` by truncating
`i32` division (a panic when `z = 0`), then the destination index
`di = (dp + dst_width as i32 * dq) as usize` and the guarded copy.
`i % src_width` panics when `src_width = 0`. -/
def rotatePixel (srcW : Nat) (srcData : List Nat) (dstW : Nat) (t : Transform)
    (dst : List Nat) (i : Nat) : Option (List Nat) :=
  if srcW = 0 then none
  else
    match i32div (iadd (iadd (imul t.a (i32ofUsize (i % srcW)))
            (imul t.c (i32ofUsize (i / srcW)))) t.x) (zAt t srcW i),
          i32div (iadd (iadd (imul t.b (i32ofUsize (i % srcW)))
            (imul t.d (i32ofUsize (i / srcW)))) t.y) (zAt t srcW i) with
    | some dp, some dq =>
      rotWrite srcData dst i (usizeOfI32 (iadd dp (imul (i32ofUsize dstW) dq)))
    | _, _ => none

/-- Tail of the `rotate_frame` pixel loop: process the `n` pixel indices
`i, i+1, ...`, in order. -/
def rotateGo (srcW : Nat) (srcData : List Nat) (dstW : Nat) (t : Transform) :
    List Nat → Nat → Nat → Option (List Nat)
  | dst, _, 0 => some dst
  | dst, i, n + 1 =>
    match rotatePixel srcW srcData dstW t dst i with
    | none => none
    | some dst => rotateGo srcW srcData dstW t dst (i + 1) n

/-- math.rs `rotate_frame`, on the plane-0 byte buffers of the two frames:
iterate over `px_area = src_data.len() / PX_BYTES` source pixels. -/
def rotate_frame (srcW : Nat) (srcData : List Nat) (dstW : Nat) (dstData : List Nat)
    (t : Transform) : Option (List Nat) :=
  rotateGo srcW srcData dstW t dstData 0 (srcData.length / PX_BYTES)

/-! ### video.rs: constants and `fix_img_data` -/

/-- video.rs `MAX_ATLAS_TILE_WIDTH`. -/
def MAX_ATLAS_TILE_WIDTH : Nat := 10

/-- video.rs `MAX_ATLAS_TILE_HEIGHT`. -/
def MAX_ATLAS_TILE_HEIGHT : Nat := 10

/-- video.rs `ATLAS_TILE_WIDTH`. -/
def ATLAS_TILE_WIDTH : Nat := 80

/-- video.rs `ATLAS_TILE_HEIGHT`. -/
def ATLAS_TILE_HEIGHT : Nat := 45

/-- The row-gathering loop of `fix_img_data`: starting from the buffer
gathered so far, append `data[line*stride .. line*stride + byte_width]`
for the next `n` lines (panicking when a slice is out of range). -/
def fixImgRows (data : List Nat) (stride byteWidth : Nat) :
    List Nat → Nat → Nat → Option (List Nat)
  | buf, _, 0 => some buf
  | buf, line, n + 1 =>
    match sliceRange data (line * stride) (line * stride + byteWidth) with
    | none => none
    | some row => fixImgRows data stride byteWidth (buf ++ row) (line + 1) n

/-- video.rs `fix_img_data` on the plane-0 buffer: gather `height` packed
rows of `width * 4` bytes, extend the packed buffer with the original
trailing bytes when it is shorter than the frame buffer, and clone the
result back over the frame buffer (`clone_from_slice` panics unless the
lengths agree, so the frame buffer length never changes). -/
def fix_img_data (width height stride : Nat) (data : List Nat) : Option (List Nat) :=
  match fixImgRows data stride (width * 4) [] 0 height with
  | none => none
  | some buffer =>
    match (if buffer.length < data.length then
        (sliceRange data buffer.length data.length).map (buffer ++ ·)
      else some buffer) with
    | none => none
    | some buffer => if buffer.length = data.length then some buffer else none

/-! ### video.rs: atlas canvas allocation (`get_video_atlas`, lines 68-78) -/

/-- The `out_frame` dimensions allocated by `get_video_atlas` when
`tile_count > 0`: width `ATLAS_TILE_WIDTH * min(tile_count,
MAX_ATLAS_TILE_WIDTH)`, height `ATLAS_TILE_HEIGHT * min(tile_count /
MAX_ATLAS_TILE_WIDTH + 1, MAX_ATLAS_TILE_HEIGHT)`. -/
def atlasCanvasDims (tileCount : Nat) : Nat × Nat :=
  (ATLAS_TILE_WIDTH * min tileCount MAX_ATLAS_TILE_WIDTH,
   ATLAS_TILE_HEIGHT * min (tileCount / MAX_ATLAS_TILE_WIDTH + 1) MAX_ATLAS_TILE_HEIGHT)

/-! ### video.rs: `get_scaler` target dimensions -/

/-- The `(scaler_dst_w, scaler_dst_h)` computation of `get_scaler`
(video.rs lines 263-284), with `u32` wrapping multiplication and addition and
panicking division by zero; `dw`/`dh` are `decoder.width()`/`.height()`,
`fw` is `frame_width` and `rotation` the rotation in degrees. -/
def get_scaler_dims (dw dh fw : Nat) (rotation : Int) (maxHeight : Option Nat) :
    Option (Nat × Nat) :=
  if fw ≠ dw ∧ rotation.natAbs = 90 then
    if dh = 0 then none
    else
      let width := w32 (w32 (fw * dw) / dh + 1)
      let height := fw
      match maxHeight with
      | some mh =>
        if mh < height then
          if width = 0 then none
          else some (mh, w32 (mh * height) / width)
        else some (width, height)
      | none => some (width, height)
  else
    if dw = 0 then none
    else
      let width := fw
      let height := w32 (fw * dh) / dw
      match maxHeight with
      | some mh =>
        if mh < height then some (w32 (mh * width) / height, mh)
        else some (width, height)
      | none => some (width, height)

/-! ### video.rs: the per-frame atlas blit (`get_video_atlas`, lines 93-123) -/

/-- One iteration of the per-pixel copy loop of `get_video_atlas` at
linear frame index `i`: with `x = i % frame_width`, `y = i / frame_width`,
`dx = tile_x_offset + x`, `dy = tile_y_offset + y` and destination index
`di = (dx + out_width * dy) * 4`, copy the pixel's 4 bytes with plain
(panicking) indexing — the source has no bounds check here.
`i % frame_width` panics when the frame width is zero. -/
def blitPixel (frameData : List Nat) (fw outW txo tyo : Nat) (canvas : List Nat)
    (i : Nat) : Option (List Nat) :=
  if fw = 0 then none
  else
    copyBytes frameData canvas (uw (i * 4))
      (uw (uw (uw (txo + i % fw) + uw (outW * uw (tyo + i / fw))) * 4)) 4

/-- Tail of the blit loop: process the `n` pixel indices `i, i+1, ...`,
in order. -/
def blitPixels (frameData : List Nat) (fw outW txo tyo : Nat) :
    List Nat → Nat → Nat → Option (List Nat)
  | canvas, _, 0 => some canvas
  | canvas, i, n + 1 =>
    match blitPixel frameData fw outW txo tyo canvas i with
    | none => none
    | some canvas => blitPixels frameData fw outW txo tyo canvas (i + 1) n

/-- The blit of one sampled frame into the atlas canvas: the x pixel
offset is `tile_x * ATLAS_TILE_WIDTH + blank_width_offset` with
`tile_x = thumb_pos % MAX_ATLAS_TILE_WIDTH` and the letterbox offset
`blank_width_offset = (ATLAS_TILE_WIDTH - frame_width) / 2` (a wrapping
`usize` subtraction), the y offset likewise with
`tile_y = thumb_pos / MAX_ATLAS_TILE_HEIGHT`, followed by
`frame_width * frame_height` pixel copies. -/
def blitFrame (outW : Nat) (canvas : List Nat) (fw fh : Nat) (frameData : List Nat)
    (thumbPos : Nat) : Option (List Nat) :=
  blitPixels frameData fw outW
    (uw (uw (thumbPos % MAX_ATLAS_TILE_WIDTH * ATLAS_TILE_WIDTH) +
      uwsub ATLAS_TILE_WIDTH fw / 2))
    (uw (uw (thumbPos / MAX_ATLAS_TILE_HEIGHT * ATLAS_TILE_HEIGHT) +
      uwsub ATLAS_TILE_HEIGHT fh / 2))
    canvas 0 (uw (fw * fh))

/-! ### video.rs: the sampling loop of `get_frame` (lines 213-239)

The ffmpeg calls inside the loop are abstracted by an oracle: at a given
seek position, driving the packet iterator either yields one decoded
frame (the `break` after a successful `decode_frame`), runs out of
packets without producing a frame, or hits a fatal error; a subsequent
`seek_seconds` either succeeds or fails.  The loop itself is embedded
verbatim: it keeps running while `frames.len() < frame_count`, and after
each inner pass advances `seconds` by `fps` (a wrapping `u32` addition)
and seeks there. -/

/-- Outcome of one pass over `av_format_ctx.packets()` in `get_frame`. -/
inductive InnerOutcome where
  | gotFrame (f : Nat)
  | exhausted
  | fatal
deriving DecidableEq

/-- Oracle for the container and decoder state seen by the sampling loop. -/
structure ContainerModel where
  inner : Nat → InnerOutcome
  seekOk : Nat → Bool

/-- The `while frames.len() < frame_count` loop of `get_frame`, stepped
with explicit fuel: `none` means the loop is still running after that
many iterations, `some (Except.error ())` an error return, and
`some (Except.ok frames)` the successful exit with the collected frames. -/
def getFrameLoop (cm : ContainerModel) (frameCount fps : Nat) :
    List Nat → Nat → Nat → Option (Except Unit (List Nat))
  | _, _, 0 => none
  | frames, seconds, fuel + 1 =>
    if frames.length < frameCount then
      match cm.inner seconds with
      | InnerOutcome.fatal => some (Except.error ())
      | InnerOutcome.gotFrame f =>
        if cm.seekOk (w32 (seconds + fps)) then
          getFrameLoop cm frameCount fps (frames ++ [f]) (w32 (seconds + fps)) fuel
        else some (Except.error ())
      | InnerOutcome.exhausted =>
        if cm.seekOk (w32 (seconds + fps)) then
          getFrameLoop cm frameCount fps frames (w32 (seconds + fps)) fuel
        else some (Except.error ())
    else some (Except.ok frames)

/-- A container whose packets are exhausted (no frame is ever produced)
but whose seeks keep succeeding. -/
def exhaustedContainer : ContainerModel where
  inner := fun _ => InnerOutcome.exhausted
  seekOk := fun _ => true

/-- A container that yields one decoded frame on every pass and always
seeks successfully. -/
def steadyContainer : ContainerModel where
  inner := fun _ => InnerOutcome.gotFrame 7
  seekOk := fun _ => true

/-! ### Helper lemmas about the machine-arithmetic model -/

theorem bmod_small (x : Int) (h1 : -2147483648 ≤ x) (h2 : x < 2147483648) :
    Int.bmod x U32 = x := by
  rw [U32, Int.bmod]
  split <;> omega

theorem uw_small (n : Nat) (h : n < U64) : uw n = n := Nat.mod_eq_of_lt h

theorem w32_small (n : Nat) (h : n < U32) : w32 n = n := Nat.mod_eq_of_lt h

theorem i32ofUsize_small (n : Nat) (h : n < 2147483648) : i32ofUsize n = (n : Int) :=
  bmod_small _ (by omega) (by exact_mod_cast h)

theorem usizeOfI32_small (x : Int) (h0 : 0 ≤ x) (h : x < 2147483648) :
    usizeOfI32 x = x.toNat := by
  rw [usizeOfI32, U64, Int.emod_eq_of_lt h0 (by omega)]

theorem sliceRange_spec (data : List Nat) (a b : Nat) (hab : a ≤ b) (hb : b ≤ data.length) :
    ∃ out, sliceRange data a b = some out ∧ out.length = b - a := by
  refine ⟨(data.drop a).take (b - a), ?_, ?_⟩
  · rw [sliceRange, if_pos ⟨hab, hb⟩]
  · rw [List.length_take, List.length_drop]
    omega

theorem wrByte_lt (dst : List Nat) (i v : Nat) (h : i < dst.length) :
    wrByte dst i v = some (dst.set i v) := by
  rw [wrByte, if_pos h]

theorem get?_of_lt (l : List Nat) (n : Nat) (h : n < l.length) :
    ∃ v, l.get? n = some v := by
  rw [List.get?_eq_get h]
  exact ⟨_, rfl⟩

/-! ### C1: `fix_img_data` and the frame buffer length -/

theorem fixImgRows_spec (data : List Nat) (stride bw : Nat) (hbw : bw ≤ stride) :
    ∀ n line buf, (line + n) * stride ≤ data.length →
      ∃ out, fixImgRows data stride bw buf line n = some out ∧
        out.length = buf.length + n * bw := by
  intro n
  induction n with
  | zero => intro line buf _; exact ⟨buf, rfl, by omega⟩
  | succ n ih =>
    intro line buf h
    have h1 : (line + 1) * stride ≤ (line + (n + 1)) * stride :=
      Nat.mul_le_mul_right _ (by omega)
    have h2 : (line + 1) * stride = line * stride + stride := by ring
    have hslice : line * stride + bw ≤ data.length := by omega
    obtain ⟨row, hrow, hrowlen⟩ := sliceRange_spec data (line * stride)
      (line * stride + bw) (by omega) hslice
    have h3 : (line + 1 + n) * stride = (line + (n + 1)) * stride := by ring
    obtain ⟨out, hout, hlen⟩ := ih (line + 1) (buf ++ row) (by omega)
    refine ⟨out, ?_, ?_⟩
    · rw [fixImgRows, hrow]
      exact hout
    · rw [hlen, List.length_append]
      have : n * bw + bw = (n + 1) * bw := by ring
      omega

/-- C1 counterexample: a one-pixel frame with row stride 8.  After
`fix_img_data` the frame buffer still has its original length 8, not
`width * 4 * height = 4`: `clone_from_slice` writes the repacked bytes
back over the unchanged 8-byte frame buffer. -/
theorem fix_img_data_stride_padded_len :
    fix_img_data 1 1 8 [1, 2, 3, 4, 5, 6, 7, 8] = some [1, 2, 3, 4, 5, 6, 7, 8] ∧
    (List.length [1, 2, 3, 4, 5, 6, 7, 8] == 1 * 4 * 1) = false := by
  constructor <;> rfl

/-- C1 (amended): when the row stride is at least the packed row width
and the buffer holds `height` full strides, `fix_img_data` succeeds and
the frame buffer keeps its original length; the tightly packed pixel data
occupies the first `width * 4 * height` bytes, and the length equals
`width * 4 * height` only when the buffer was already tightly packed. -/
theorem fix_img_data_len_preserved (width height stride : Nat) (data : List Nat)
    (hbw : width * 4 ≤ stride) (hlen : stride * height ≤ data.length) :
    ∃ out, fix_img_data width height stride data = some out ∧
      out.length = data.length := by
  obtain ⟨buf, hbuf, hbuflen⟩ := fixImgRows_spec data stride (width * 4) hbw height 0 []
    (by rw [Nat.zero_add, Nat.mul_comm]; exact hlen)
  simp only [List.length_nil, Nat.zero_add] at hbuflen
  have e1 : height * (width * 4) ≤ height * stride := Nat.mul_le_mul_left _ hbw
  have e2 : height * stride = stride * height := by ring
  have hble : buf.length ≤ data.length := by omega
  rw [fix_img_data, hbuf]
  dsimp only
  by_cases hc : buf.length < data.length
  · obtain ⟨tail, htail, htaillen⟩ := sliceRange_spec data buf.length data.length
      (by omega) (by omega)
    rw [if_pos hc, htail]
    simp only [Option.map_some']
    rw [if_pos (by rw [List.length_append]; omega)]
    exact ⟨_, rfl, by rw [List.length_append]; omega⟩
  · rw [if_neg hc]
    dsimp only
    rw [if_pos (by omega)]
    exact ⟨buf, rfl, by omega⟩

/-- C1 witness: the amended theorem applied to the padded one-pixel
frame. -/
theorem fix_img_data_len_preserved_witness :
    1 * 4 ≤ 8 ∧ ∃ out, fix_img_data 1 1 8 [0, 0, 0, 0, 0, 0, 0, 0] = some out ∧
      out.length = List.length [0, 0, 0, 0, 0, 0, 0, 0] :=
  ⟨by decide, fix_img_data_len_preserved 1 1 8 _ (by decide) (by decide)⟩

/-! ### C2: atlas canvas dimensions -/

/-- C2 counterexample: for `tile_count = 10` the canvas is `800 × 90`,
i.e. two tile rows, while `45 * ceil(10 / 10) = 45` would be one row:
the source computes `tile_count / 10 + 1` rows, which is not
`ceil(tile_count / 10)` at multiples of 10. -/
theorem atlas_dims_ten_tiles :
    atlasCanvasDims 10 = (800, 90) ∧ 45 * ((10 + 9) / 10) = 45 ∧
    ((90 : Nat) == 45) = false := by
  refine ⟨rfl, rfl, rfl⟩

/-- C2 (amended): for every positive `tile_count` the canvas width is
`80 * min(tile_count, 10)` — never more than 10 columns — and the row
count is `tile_count / 10 + 1` capped at 10 (never more than 10 rows).
This agrees with `ceil(tile_count / 10)` capped at 10 if and only if
`tile_count` is NOT a positive multiple of 10 below 100; at those
multiples (10, 20, ..., 90) the canvas has exactly one row more than
the capped ceiling, while at 100 and above the cap makes the two
coincide. -/
theorem atlas_dims_bounds (tc : Nat) (h : 0 < tc) :
    (atlasCanvasDims tc).1 = 80 * min tc 10 ∧
    (atlasCanvasDims tc).2 = 45 * min (tc / 10 + 1) 10 ∧
    min tc 10 ≤ 10 ∧ min (tc / 10 + 1) 10 ≤ 10 ∧
    ((atlasCanvasDims tc).2 = 45 * min ((tc + 9) / 10) 10 ↔ ¬(tc % 10 = 0 ∧ tc < 100)) ∧
    (tc % 10 = 0 → tc < 100 →
      (atlasCanvasDims tc).2 = 45 * (min ((tc + 9) / 10) 10 + 1)) := by
  rw [atlasCanvasDims, ATLAS_TILE_WIDTH, ATLAS_TILE_HEIGHT, MAX_ATLAS_TILE_WIDTH,
    MAX_ATLAS_TILE_HEIGHT]
  refine ⟨rfl, rfl, by omega, by omega, by constructor <;> omega, by omega⟩

/-- C2 witness: the amended theorem at twenty tiles, a multiple of 10
below 100, where the canvas has one more row than the capped ceiling. -/
theorem atlas_dims_bounds_witness :
    0 < 20 ∧ (atlasCanvasDims 20).1 = 80 * min 20 10 ∧
    (atlasCanvasDims 20).2 = 45 * min (20 / 10 + 1) 10 ∧
    min 20 10 ≤ 10 ∧ min (20 / 10 + 1) 10 ≤ 10 ∧
    ((atlasCanvasDims 20).2 = 45 * min ((20 + 9) / 10) 10 ↔ ¬(20 % 10 = 0 ∧ 20 < 100)) ∧
    (20 % 10 = 0 → 20 < 100 →
      (atlasCanvasDims 20).2 = 45 * (min ((20 + 9) / 10) 10 + 1)) :=
  ⟨by decide, atlas_dims_bounds 20 (by decide)⟩

/-! ### C3 and C4: `get_scaler` target dimensions -/

/-- C3 counterexample: native `100 × 50`, requested width 100 and
rotation 90.  The claim's rotated formula predicts `(100 * 100 / 50 + 1,
100) = (201, 100)`, but because `frame_width == decoder.width()` the
source takes the non-rotated branch and yields `(100, 50)`. -/
theorem scaler_rot90_native_width :
    get_scaler_dims 100 50 100 90 none = some (100, 50) ∧
    100 * 100 / 50 + 1 = 201 ∧
    ((100 : Nat) == 201) = false := by
  refine ⟨rfl, rfl, rfl⟩

/-- C3 (amended): with no max height and no `u32` overflow, the rotated
formula `(fw * dw / dh + 1, fw)` applies exactly when the rotation
magnitude is 90 AND the requested width differs from the native width;
in every other case — including rotation 90 with `fw = dw` — the result
is `(fw, fw * dh / dw)`. -/
theorem scaler_dims_formula (dw dh fw : Nat) (rotation : Int)
    (hdw : dw ≠ 0) (hdh : dh ≠ 0)
    (h1 : fw * dw < U32) (h2 : fw * dh < U32) (h3 : fw * dw / dh + 1 < U32) :
    (fw ≠ dw ∧ rotation.natAbs = 90 →
      get_scaler_dims dw dh fw rotation none = some (fw * dw / dh + 1, fw)) ∧
    (¬(fw ≠ dw ∧ rotation.natAbs = 90) →
      get_scaler_dims dw dh fw rotation none = some (fw, fw * dh / dw)) := by
  constructor
  · intro hr
    rw [get_scaler_dims, if_pos hr, if_neg hdh]
    rw [w32_small _ h1, w32_small _ h3]
  · intro hr
    rw [get_scaler_dims, if_neg hr, if_neg hdw]
    rw [w32_small _ h2]

/-- C3 witness: a `1920 × 1080` video scaled to width 320 with no
rotation yields `(320, 180)`. -/
theorem scaler_dims_formula_witness :
    ¬(320 ≠ 1920 ∧ (0 : Int).natAbs = 90) ∧
    get_scaler_dims 1920 1080 320 0 none = some (320, 320 * 1080 / 1920) :=
  ⟨by decide, (scaler_dims_formula 1920 1080 320 0 (by decide) (by decide)
    (by decide) (by decide) (by decide)).2 (by decide)⟩

/-- C4 counterexample: native `100 × 1000`, requested width 80, rotation
90 and max height 45.  The pre-clamp target is `(9, 80)`; the claim
predicts a proportional rescale to height 45, i.e. the resulting height
equals the max height, but the source's rotated branch instead sets the
WIDTH to 45 and rescales the height to `45 * 80 / 9 = 400`, which
exceeds the max height. -/
theorem scaler_max_height_rotated :
    get_scaler_dims 100 1000 80 90 (some 45) = some (45, 400) ∧
    ((400 : Nat) == 45) = false := by
  refine ⟨rfl, rfl⟩

/-- C4 (amended): when a max height is supplied and the computed height
exceeds it, the non-rotated branch rescales proportionally so that the
resulting HEIGHT equals the max height, while the rotated branch
rescales so that the resulting WIDTH equals the max height (the
subsequent 90-degree rotation swaps the dimensions, making the displayed
height equal the max height); in both branches the other dimension is
scaled by the same ratio with truncating division. -/
theorem scaler_max_height_clamp (dw dh fw mh : Nat) (rotation : Int)
    (hdw : dw ≠ 0) (hdh : dh ≠ 0)
    (h1 : fw * dw < U32) (h2 : fw * dh < U32) (h3 : fw * dw / dh + 1 < U32)
    (h4 : mh * fw < U32) :
    (fw ≠ dw ∧ rotation.natAbs = 90 → mh < fw →
      get_scaler_dims dw dh fw rotation (some mh) =
        some (mh, mh * fw / (fw * dw / dh + 1))) ∧
    (¬(fw ≠ dw ∧ rotation.natAbs = 90) → mh < fw * dh / dw →
      get_scaler_dims dw dh fw rotation (some mh) =
        some (mh * fw / (fw * dh / dw), mh)) := by
  constructor
  · intro hr hmh
    rw [get_scaler_dims, if_pos hr, if_neg hdh]
    rw [w32_small _ h1, w32_small _ h3]
    dsimp only
    rw [if_pos hmh, if_neg (Nat.succ_ne_zero _), w32_small _ h4]
  · intro hr hmh
    rw [get_scaler_dims, if_neg hr, if_neg hdw]
    rw [w32_small _ h2]
    dsimp only
    rw [if_pos hmh, w32_small _ h4]

/-- C4 witness: the non-rotated clamp at native `1920 × 1080`, requested
width 1280, max height 45: height `720` is clamped to 45 and the width
scales to `45 * 1280 / 720 = 80`. -/
theorem scaler_max_height_clamp_witness :
    (¬(1280 ≠ 1920 ∧ (0 : Int).natAbs = 90)) ∧ 45 < 1280 * 1080 / 1920 ∧
    get_scaler_dims 1920 1080 1280 0 (some 45) =
      some (45 * 1280 / (1280 * 1080 / 1920), 45) :=
  ⟨by decide, by decide, (scaler_max_height_clamp 1920 1080 1280 45 0 (by decide)
    (by decide) (by decide) (by decide) (by decide) (by decide)).2 (by decide) (by decide)⟩

/-! ### C5: the fixed-point conversion of `parse_display_matrix` -/

/-- C5 counterexample: a matrix whose first cell holds the raw value
`2147483647 = i32::MAX` (little-endian bytes `FF FF FF 7F`).  Exact
truncation of `2147483647 / 2^16` is `32767`, but `to_fixed_point` first
rounds the value to `f32`, giving `2^31`, and the parsed cell is
`32768`. -/
theorem parse_matrix_f32_rounding :
    parse_display_matrix ([255, 255, 255, 127] ++ List.replicate 32 0) =
      some (Except.ok [32768, 0, 0, 0, 0, 0, 0, 0, 0]) ∧
    Int.tdiv 2147483647 (2 ^ 16) = 32767 ∧
    ((32768 : Int) == 32767) = false := by
  refine ⟨rfl, rfl, rfl⟩

/-- The raw native-endian signed 32-bit value at byte offset `4*i` of a
display-matrix byte buffer (the claim's "raw" value for cell `i`). -/
def rawCell (bytes : List Nat) (i : Nat) : Int :=
  i32_from_ne_bytes (bytes.getD (4 * i) 0) (bytes.getD (4 * i + 1) 0)
    (bytes.getD (4 * i + 2) 0) (bytes.getD (4 * i + 3) 0)

/-- The amended claim's value for cell `i`: the raw value scaled by
`2^30` for cells 2, 5, 8 and by `2^16` otherwise, through the source's
`f32` route. -/
def matrixCellSpec (bytes : List Nat) (i : Nat) : Int :=
  if i = 2 ∨ i = 5 ∨ i = 8 then to_fixed_point (rawCell bytes i) 30
  else to_fixed_point (rawCell bytes i) 16

theorem drop_take_four (l : List Nat) :
    ∀ a, a + 4 ≤ l.length →
      (l.drop a).take 4 = [l.getD a 0, l.getD (a + 1) 0, l.getD (a + 2) 0, l.getD (a + 3) 0] := by
  induction l with
  | nil => intro a h; simp at h
  | cons x l ih =>
    intro a h
    cases a with
    | zero =>
      simp only [List.length_cons] at h
      match l, h with
      | v1 :: v2 :: v3 :: rest, _ => rfl
    | succ a =>
      simp only [List.length_cons] at h
      simpa using ih a (by omega)

theorem parseCell_spec (bytes : List Nat) (k : Nat) (h : 4 * k + 4 ≤ bytes.length) :
    parseCell bytes k = some (Except.ok (matrixCellSpec bytes k)) := by
  have h1 : k * 4 ≤ k * 4 + 4 := by omega
  have h2 : k * 4 + 4 ≤ bytes.length := by omega
  rw [parseCell, sliceRange, if_pos ⟨h1, h2⟩]
  have h3 : k * 4 + 4 - k * 4 = 4 := by omega
  have h4 : k * 4 = 4 * k := by ring
  rw [h3, h4, drop_take_four bytes (4 * k) h]
  dsimp only
  simp only [matrixCellSpec, rawCell]

/-- The cells `k, k+1, ...` (a total of `n`) that the amended claim
predicts for a display-matrix byte buffer. -/
def matrixCells (bytes : List Nat) : Nat → Nat → List Int
  | _, 0 => []
  | k, n + 1 => matrixCellSpec bytes k :: matrixCells bytes (k + 1) n

theorem parseCells_spec (bytes : List Nat) :
    ∀ n k acc, 4 * (k + n) ≤ bytes.length →
      parseCells bytes acc k n = some (Except.ok (acc ++ matrixCells bytes k n)) := by
  intro n
  induction n with
  | zero => intro k acc _; simp [parseCells, matrixCells]
  | succ n ih =>
    intro k acc h
    rw [parseCells, parseCell_spec bytes k (by omega)]
    dsimp only
    rw [ih (k + 1) (acc ++ [matrixCellSpec bytes k]) (by omega), matrixCells]
    simp [List.append_assoc]

/-- C5 (amended): for every 36-byte input, cell `i` of the parsed matrix
is the raw native-endian signed 32-bit value at byte offset `4*i`, first
rounded to `f32` (24-bit significand, ties to even — the identity
whenever the magnitude is below `2^24`), then divided by `2^30` for
cells 2, 5, 8 and by `2^16` otherwise, truncating toward zero. -/
theorem parse_matrix_cells (bytes : List Nat) (h : bytes.length = 36) :
    parse_display_matrix bytes =
    some (Except.ok
      [matrixCellSpec bytes 0, matrixCellSpec bytes 1, matrixCellSpec bytes 2,
       matrixCellSpec bytes 3, matrixCellSpec bytes 4, matrixCellSpec bytes 5,
       matrixCellSpec bytes 6, matrixCellSpec bytes 7, matrixCellSpec bytes 8]) := by
  rw [parse_display_matrix, parseCells_spec bytes 9 0 [] (by omega)]
  rfl

/-- C5 witness: the amended theorem on the all-zero matrix. -/
theorem parse_matrix_cells_witness :
    (List.replicate 36 0).length = 36 ∧
    parse_display_matrix (List.replicate 36 0) =
    some (Except.ok
      [matrixCellSpec (List.replicate 36 0) 0, matrixCellSpec (List.replicate 36 0) 1,
       matrixCellSpec (List.replicate 36 0) 2, matrixCellSpec (List.replicate 36 0) 3,
       matrixCellSpec (List.replicate 36 0) 4, matrixCellSpec (List.replicate 36 0) 5,
       matrixCellSpec (List.replicate 36 0) 6, matrixCellSpec (List.replicate 36 0) 7,
       matrixCellSpec (List.replicate 36 0) 8]) :=
  ⟨by decide, parse_matrix_cells (List.replicate 36 0) (by decide)⟩

/-! ### C6: `parse_display_matrix` on short input -/

/-- C6: on a 35-byte input the ninth slice `bytes[32..36]` is out of
range, and Rust slice indexing panics before `try_into` can fail, so the
function panics (`none`) instead of returning the conversion error the
`Err` branch was written to produce; that branch is unreachable. -/
theorem parse_matrix_short_input_panics :
    parse_display_matrix (List.replicate 35 0) = none := rfl

/-! ### C7: termination of the sampling loop -/

/-- C7 counterexample: a container whose packets are exhausted while
seeks keep succeeding.  The claim predicts that the loop terminates and
returns the frames collected so far (here `Except.ok []`), but after 200
iterations it is still running: the `while frames.len() < frame_count`
loop has no duration check and never exits with fewer frames. -/
theorem sampling_loop_exhausted_spins :
    getFrameLoop exhaustedContainer 1 1 [] 0 200 = none := rfl

/-- C7 (amended): every terminating run of the sampling loop that starts
with at most `frame_count` frames either returns an error or returns
exactly `frame_count` frames; a successful return with fewer frames than
requested is impossible, and on an exhausted container with succeeding
seeks the loop does not terminate at all. -/
theorem sampling_loop_ok_full (cm : ContainerModel) (frameCount fps : Nat) :
    ∀ fuel frames seconds fs, frames.length ≤ frameCount →
      getFrameLoop cm frameCount fps frames seconds fuel = some (Except.ok fs) →
      fs.length = frameCount := by
  intro fuel
  induction fuel with
  | zero => intro frames seconds fs _ hrun; simp [getFrameLoop] at hrun
  | succ fuel ih =>
    intro frames seconds fs hle hrun
    rw [getFrameLoop] at hrun
    by_cases hc : frames.length < frameCount
    · rw [if_pos hc] at hrun
      cases hinner : cm.inner seconds with
      | fatal => rw [hinner] at hrun; exact absurd hrun (by simp)
      | gotFrame f =>
        rw [hinner] at hrun
        dsimp only at hrun
        by_cases hs : cm.seekOk (w32 (seconds + fps)) = true
        · rw [if_pos hs] at hrun
          exact ih (frames ++ [f]) _ fs (by simp only [List.length_append]; simp; omega) hrun
        · rw [if_neg hs] at hrun
          exact absurd hrun (by simp)
      | exhausted =>
        rw [hinner] at hrun
        dsimp only at hrun
        by_cases hs : cm.seekOk (w32 (seconds + fps)) = true
        · rw [if_pos hs] at hrun
          exact ih frames _ fs hle hrun
        · rw [if_neg hs] at hrun
          exact absurd hrun (by simp)
    · rw [if_neg hc] at hrun
      have heq : frames = fs := by
        have := Option.some.inj hrun
        exact Except.ok.inj this
      subst heq
      omega

/-- C7 witness: a steadily decoding container asked for two frames
returns exactly two. -/
theorem sampling_loop_ok_full_witness :
    ([] : List Nat).length ≤ 2 ∧
    getFrameLoop steadyContainer 2 1 [] 0 5 = some (Except.ok [7, 7]) ∧
    List.length [7, 7] = 2 :=
  ⟨by decide, rfl, sampling_loop_ok_full steadyContainer 2 1 5 [] 0 [7, 7]
    (by decide) (by rfl)⟩

/-! ### C10: the unguarded homogeneous division of `rotate_frame` -/

theorem rotatePixel_none_of_z_zero (srcW : Nat) (srcData : List Nat) (dstW : Nat)
    (t : Transform) (dst : List Nat) (i : Nat) (hz : zAt t srcW i = 0) :
    rotatePixel srcW srcData dstW t dst i = none := by
  rw [rotatePixel]
  by_cases hw : srcW = 0
  · rw [if_pos hw]
  · rw [if_neg hw]
    have h1 : i32div (iadd (iadd (imul t.a (i32ofUsize (i % srcW)))
        (imul t.c (i32ofUsize (i / srcW)))) t.x) (zAt t srcW i) = none := by
      rw [hz, i32div, if_pos (Or.inl rfl)]
    have h2 : i32div (iadd (iadd (imul t.b (i32ofUsize (i % srcW)))
        (imul t.d (i32ofUsize (i / srcW)))) t.y) (zAt t srcW i) = none := by
      rw [hz, i32div, if_pos (Or.inl rfl)]
    rw [h1, h2]

theorem rotateGo_none (srcW : Nat) (srcData : List Nat) (dstW : Nat) (t : Transform) :
    ∀ n i dst, (∃ j, i ≤ j ∧ j < i + n ∧ zAt t srcW j = 0) →
      rotateGo srcW srcData dstW t dst i n = none := by
  intro n
  induction n with
  | zero => intro i dst ⟨j, h1, h2, _⟩; omega
  | succ n ih =>
    intro i dst ⟨j, h1, h2, hz⟩
    rw [rotateGo]
    by_cases hji : j = i
    · rw [rotatePixel_none_of_z_zero srcW srcData dstW t dst i (hji ▸ hz)]
    · cases hstep : rotatePixel srcW srcData dstW t dst i with
      | none => rfl
      | some d => exact ih (i + 1) d ⟨j, by omega, by omega, hz⟩

/-- C10: `rotate_frame` divides by the homogeneous denominator
`z = u*p + v*q + w` with no zero guard, so whenever some iterated source
pixel index makes `z = 0` the whole call panics (`none`); in particular
it is total only under the precondition that `z` is nonzero at every
source pixel, and a transform with `u = v = w = 0` panics on any
nonempty frame. -/
theorem rotate_frame_zero_denominator (srcW : Nat) (srcData dstData : List Nat)
    (dstW : Nat) (t : Transform)
    (h : ∃ i, i < srcData.length / PX_BYTES ∧ zAt t srcW i = 0) :
    rotate_frame srcW srcData dstW dstData t = none := by
  obtain ⟨i, hi, hz⟩ := h
  exact rotateGo_none srcW srcData dstW t _ 0 dstData ⟨i, by omega, by omega, hz⟩

/-- C10 witness: the all-zero last row (`u = v = w = 0`) panics on a
one-pixel frame. -/
theorem rotate_frame_zero_denominator_witness :
    (∃ i, i < List.length [5, 6, 7, 8] / PX_BYTES ∧
      zAt ⟨1, 0, 0, 0, 1, 0, 0, 0, 0⟩ 1 i = 0) ∧
    rotate_frame 1 [5, 6, 7, 8] 1 [0, 0, 0, 0] ⟨1, 0, 0, 0, 1, 0, 0, 0, 0⟩ = none :=
  ⟨⟨0, by decide, by decide⟩,
    rotate_frame_zero_denominator 1 [5, 6, 7, 8] [0, 0, 0, 0] 1 _
      ⟨0, by decide, by decide⟩⟩

/-! ### C8: `rotate_frame` under the zero-rotation matrix -/

theorem copyGo_spec (src : List Nat) (sBase dBase : Nat) :
    ∀ n c dst, sBase + c + n ≤ src.length → dBase + c + n ≤ dst.length →
      sBase + c + n ≤ U64 → dBase + c + n ≤ U64 →
      ∃ out, copyGo src sBase dBase dst c n = some out ∧
        out.length = dst.length ∧
        (∀ j, j < dBase + c ∨ dBase + c + n ≤ j → out.get? j = dst.get? j) ∧
        (∀ e, c ≤ e → e < c + n → out.get? (dBase + e) = src.get? (sBase + e)) := by
  intro n
  induction n with
  | zero =>
    intro c dst _ _ _ _
    exact ⟨dst, rfl, rfl, fun j _ => rfl, fun e he1 he2 => by omega⟩
  | succ n ih =>
    intro c dst hs hd hsU hdU
    have hsc : sBase + c < src.length := by omega
    have hdc : dBase + c < dst.length := by omega
    have huws : uw (sBase + c) = sBase + c := uw_small _ (by omega)
    have huwd : uw (dBase + c) = dBase + c := uw_small _ (by omega)
    obtain ⟨v, hv⟩ := get?_of_lt src (sBase + c) hsc
    obtain ⟨out, hout, hlen, huntouched, hcopied⟩ :=
      ih (c + 1) (dst.set (dBase + c) v) (by omega)
        (by rw [List.length_set]; omega) (by omega) (by omega)
    refine ⟨out, ?_, ?_, ?_, ?_⟩
    · rw [copyGo, huws, hv]
      dsimp only
      rw [huwd, wrByte_lt dst (dBase + c) v hdc]
      exact hout
    · rw [hlen, List.length_set]
    · intro j hj
      have hne : dBase + c ≠ j := by omega
      rw [huntouched j (by omega), List.get?_set_ne v dst hne]
    · intro e he1 he2
      by_cases hec : e = c
      · subst hec
        rw [huntouched (dBase + e) (Or.inl (by omega)),
          List.get?_set_eq_of_lt v hdc, hv]
      · exact hcopied e (by omega) (by omega)

/-- The zero-rotation transform with unit denominator. -/
def idTransform : Transform := ⟨1, 0, 0, 0, 1, 0, 0, 0, 1⟩

theorem bmod_nat_small (n : Nat) (h : n < 2147483648) : Int.bmod (n : Int) U32 = n :=
  bmod_small _ (by omega) (by exact_mod_cast h)

theorem imul_zero_left (x : Int) : imul 0 x = 0 := by
  rw [imul, Int.zero_mul]
  decide

theorem imul_one_nat (n : Nat) (h : n < 2147483648) : imul 1 (n : Int) = n := by
  rw [imul, Int.one_mul]
  exact bmod_nat_small n h

theorem iadd_zero_nat (n : Nat) (h : n < 2147483648) : iadd (n : Int) 0 = n := by
  rw [iadd, Int.add_zero]
  exact bmod_nat_small n h

theorem imul_nat (m n : Nat) (h : m * n < 2147483648) :
    imul (m : Int) (n : Int) = ((m * n : Nat) : Int) := by
  rw [imul]
  rw [show ((m : Int) * (n : Int)) = ((m * n : Nat) : Int) from by push_cast; ring]
  exact bmod_nat_small _ h

theorem iadd_nat (m n : Nat) (h : m + n < 2147483648) :
    iadd (m : Int) (n : Int) = ((m + n : Nat) : Int) := by
  rw [iadd]
  rw [show ((m : Int) + (n : Int)) = ((m + n : Nat) : Int) from by push_cast; ring]
  exact bmod_nat_small _ h

theorem i32div_one_nat (n : Nat) : i32div (n : Int) 1 = some (n : Int) := by
  rw [i32div, if_neg (by norm_num), Int.tdiv_one]

theorem usizeOfI32_nat (n : Nat) (h : n < 2147483648) : usizeOfI32 (n : Int) = n := by
  rw [usizeOfI32_small _ (by omega) (by exact_mod_cast h)]
  exact Int.toNat_natCast n

theorem small_index_no_overflow (i : Nat) (h : i < 2147483648) :
    i = 0 ∨ 4 ≤ (U64 - 1) / i := by
  by_cases hi0 : i = 0
  · exact Or.inl hi0
  · refine Or.inr ?_
    rw [Nat.le_div_iff_mul_le (by omega)]
    rw [U64]
    omega

theorem rotatePixel_id (srcW : Nat) (srcData : List Nat) (dst : List Nat) (i : Nat)
    (hw : 0 < srcW) (h31 : srcW < 2147483648)
    (hL : srcData.length < 8589934592) (hdlen : dst.length = srcData.length)
    (hi : i < srcData.length / PX_BYTES) :
    ∃ out, rotatePixel srcW srcData srcW idTransform dst i = some out ∧
      out.length = dst.length ∧
      (∀ j, j < 4 * i ∨ 4 * i + 4 ≤ j → out.get? j = dst.get? j) ∧
      (∀ e, e < 4 → out.get? (4 * i + e) = srcData.get? (4 * i + e)) := by
  have hPX : PX_BYTES = 4 := rfl
  rw [hPX] at hi
  have hiL : i < 2147483648 := by omega
  have hp31 : i % srcW < 2147483648 := lt_of_lt_of_le (Nat.mod_lt i hw) (le_of_lt h31)
  have hq31 : i / srcW < 2147483648 := lt_of_le_of_lt (Nat.div_le_self i srcW) hiL
  have hqw : srcW * (i / srcW) ≤ i := Nat.mul_div_le i srcW
  have hsum : i % srcW + srcW * (i / srcW) = i := Nat.mod_add_div i srcW
  have hi4 : i * 4 + 4 ≤ srcData.length := by
    have h1 : 4 * (srcData.length / 4) ≤ srcData.length := Nat.mul_div_le _ _
    omega
  have hlt4 : i * 4 < dst.length := by omega
  have hu64 : i * 4 < U64 := by rw [U64]; omega
  obtain ⟨out, hout, hlen, huntouched, hcopied⟩ :=
    copyGo_spec srcData (i * 4) (i * 4) 4 0 dst (by omega) (by omega)
      (by rw [U64]; omega) (by rw [U64]; omega)
  have hunt4 : ∀ j, j < 4 * i ∨ 4 * i + 4 ≤ j → out.get? j = dst.get? j := by
    intro j hj
    exact huntouched j (by omega)
  have hcp4 : ∀ e, e < 4 → out.get? (4 * i + e) = srcData.get? (4 * i + e) := by
    intro e he
    have hce := hcopied e (by omega) he
    rw [show i * 4 + e = 4 * i + e from by ring_nf] at hce
    exact hce
  have hz : zAt idTransform srcW i = 1 := by
    rw [zAt, idTransform]
    dsimp only
    rw [imul_zero_left, imul_zero_left]
    decide
  have hP : i32ofUsize (i % srcW) = ((i % srcW : Nat) : Int) :=
    i32ofUsize_small _ hp31
  have hQ : i32ofUsize (i / srcW) = ((i / srcW : Nat) : Int) :=
    i32ofUsize_small _ hq31
  have hnum1 : iadd (iadd (imul idTransform.a ((i % srcW : Nat) : Int))
      (imul idTransform.c ((i / srcW : Nat) : Int))) idTransform.x
      = ((i % srcW : Nat) : Int) := by
    rw [idTransform]
    dsimp only
    rw [imul_one_nat _ hp31, imul_zero_left, iadd_zero_nat _ hp31, iadd_zero_nat _ hp31]
  have hnum2 : iadd (iadd (imul idTransform.b ((i % srcW : Nat) : Int))
      (imul idTransform.d ((i / srcW : Nat) : Int))) idTransform.y
      = ((i / srcW : Nat) : Int) := by
    rw [idTransform]
    dsimp only
    rw [imul_zero_left, imul_one_nat _ hq31]
    rw [show iadd 0 ((i / srcW : Nat) : Int) = ((i / srcW : Nat) : Int) from by
      rw [iadd, Int.zero_add]; exact bmod_nat_small _ hq31]
    exact iadd_zero_nat _ hq31
  have hdi : iadd ((i % srcW : Nat) : Int)
      (imul (i32ofUsize srcW) ((i / srcW : Nat) : Int)) = (i : Int) := by
    have hm : srcW * (i / srcW) < 2147483648 := lt_of_le_of_lt hqw hiL
    have ha : i % srcW + srcW * (i / srcW) < 2147483648 := by rw [hsum]; exact hiL
    rw [i32ofUsize_small _ h31, imul_nat _ _ hm, iadd_nat _ _ ha]
    rw [hsum]
  rw [rotatePixel, if_neg (Nat.pos_iff_ne_zero.mp hw)]
  rw [hP, hQ, hz, hnum1, hnum2, i32div_one_nat, i32div_one_nat]
  dsimp only
  rw [hdi, usizeOfI32_nat i hiL]
  rw [rotWrite, hPX, uw_small (i * 4) hu64]
  rw [if_pos ⟨small_index_no_overflow i hiL, hlt4⟩]
  rw [copyBytes]
  exact ⟨out, hout, hlen, hunt4, hcp4⟩

theorem rotateGo_id (srcW : Nat) (srcData : List Nat)
    (hw : 0 < srcW) (h31 : srcW < 2147483648) (hL : srcData.length < 8589934592) :
    ∀ n i dst, i + n ≤ srcData.length / PX_BYTES → dst.length = srcData.length →
      (∀ j, j < 4 * i → dst.get? j = srcData.get? j) →
      ∃ out, rotateGo srcW srcData srcW idTransform dst i n = some out ∧
        out.length = srcData.length ∧
        (∀ j, j < 4 * (i + n) → out.get? j = srcData.get? j) := by
  intro n
  induction n with
  | zero =>
    intro i dst _ hdlen hdone
    exact ⟨dst, rfl, hdlen, fun j hj => hdone j (by omega)⟩
  | succ n ih =>
    intro i dst hin hdlen hdone
    obtain ⟨mid, hmid, hmidlen, hmiduntouched, hmidcopied⟩ :=
      rotatePixel_id srcW srcData dst i hw h31 hL hdlen (by
        have hPX : PX_BYTES = 4 := rfl
        omega)
    have hmides : ∀ j, j < 4 * (i + 1) → mid.get? j = srcData.get? j := by
      intro j hj
      by_cases hj4 : j < 4 * i
      · rw [hmiduntouched j (Or.inl hj4)]
        exact hdone j hj4
      · have he : j = 4 * i + (j - 4 * i) := by omega
        rw [he]
        exact hmidcopied (j - 4 * i) (by omega)
    obtain ⟨out, hout, hlen, hcop⟩ := ih (i + 1) mid (by omega)
      (by rw [hmidlen, hdlen]) hmides
    refine ⟨out, ?_, hlen, fun j hj => hcop j (by omega)⟩
    rw [rotateGo, hmid]
    exact hout

/-- C8 counterexample: a 2-by-2 frame under the zero-rotation matrix
with the positive constant denominator `w = 2` is not the identity map:
`dp = p / 2` and `dq = q / 2` collapse every pixel onto the origin, so
the output holds the last source pixel at position 0 and the empty
initial bytes elsewhere (byte 8, the start of pixel `(0, 1)`, is 0
instead of the source's 9). -/
theorem rotate_frame_w2_not_identity :
    rotate_frame 2 [1, 2, 3, 4, 5, 6, 7, 8, 9, 10, 11, 12, 13, 14, 15, 16] 2
      (List.replicate 16 0) ⟨1, 0, 0, 0, 1, 0, 0, 0, 2⟩ =
      some [13, 14, 15, 16, 0, 0, 0, 0, 0, 0, 0, 0, 0, 0, 0, 0] ∧
    (0 : Int) < 2 ∧
    (([13, 14, 15, 16, 0, 0, 0, 0, 0, 0, 0, 0, 0, 0, 0, 0] : List Nat) ==
      [1, 2, 3, 4, 5, 6, 7, 8, 9, 10, 11, 12, 13, 14, 15, 16]) = false := by
  refine ⟨rfl, by decide, rfl⟩

/-- C8 (amended): under the zero-rotation matrix with UNIT denominator
`w = 1` (identity 2-by-2 block, zero offsets, zero projective terms),
`rotate_frame` is the identity map on the pixel area: for equal source
and destination widths and equal buffer lengths, every byte of every
iterated pixel — pixel `(p, q)` occupies bytes `4*(p + width*q) ..+ 4` —
is copied unchanged; for a denominator larger than 1 the map is not the
identity. -/
theorem rotate_frame_identity_w1 (srcW : Nat) (srcData dstData : List Nat)
    (hw : 0 < srcW) (h31 : srcW < 2147483648)
    (hlen : dstData.length = srcData.length) (hL : srcData.length < 8589934592) :
    ∃ out, rotate_frame srcW srcData srcW dstData ⟨1, 0, 0, 0, 1, 0, 0, 0, 1⟩ = some out ∧
      out.length = srcData.length ∧
      (∀ j, j < 4 * (srcData.length / 4) → out.get? j = srcData.get? j) ∧
      (∀ p q e, e < 4 → 4 * (p + srcW * q) + e < 4 * (srcData.length / 4) →
        out.get? (4 * (p + srcW * q) + e) = srcData.get? (4 * (p + srcW * q) + e)) := by
  obtain ⟨out, hout, hlen2, hcop⟩ := rotateGo_id srcW srcData hw h31 hL
    (srcData.length / PX_BYTES) 0 dstData (by omega) hlen (by omega)
  have hPX : PX_BYTES = 4 := rfl
  rw [hPX] at hout hcop
  refine ⟨out, ?_, hlen2, ?_, ?_⟩
  · rw [rotate_frame, hPX]
    rw [show idTransform = ⟨1, 0, 0, 0, 1, 0, 0, 0, 1⟩ from rfl] at hout
    exact hout
  · intro j hj
    exact hcop j (by omega)
  · intro p q e he hj
    exact hcop (4 * (p + srcW * q) + e) (by omega)

/-- C8 witness: the amended theorem on a concrete 2-by-2 frame; the
identity holds at pixel `(0, 1)` (bytes 8..11). -/
theorem rotate_frame_identity_w1_witness :
    0 < 2 ∧
    ∃ out, rotate_frame 2 [1, 2, 3, 4, 5, 6, 7, 8, 9, 10, 11, 12, 13, 14, 15, 16] 2
      (List.replicate 16 0) ⟨1, 0, 0, 0, 1, 0, 0, 0, 1⟩ = some out ∧
      out.length = List.length [1, 2, 3, 4, 5, 6, 7, 8, 9, 10, 11, 12, 13, 14, 15, 16] ∧
      (∀ j, j < 4 * (List.length [1, 2, 3, 4, 5, 6, 7, 8, 9, 10, 11, 12,
        13, 14, 15, 16] / 4) →
        out.get? j = [1, 2, 3, 4, 5, 6, 7, 8, 9, 10, 11, 12, 13, 14, 15, 16].get? j) ∧
      (∀ p q e, e < 4 → 4 * (p + 2 * q) + e < 4 * (List.length [1, 2, 3, 4, 5, 6, 7, 8,
        9, 10, 11, 12, 13, 14, 15, 16] / 4) →
        out.get? (4 * (p + 2 * q) + e) =
          [1, 2, 3, 4, 5, 6, 7, 8, 9, 10, 11, 12, 13, 14, 15, 16].get? (4 * (p + 2 * q) + e)) :=
  ⟨by decide, rotate_frame_identity_w1 2 _ _ (by decide) (by decide) (by decide) (by decide)⟩

/-! ### C9: the atlas blit and its missing bounds check -/

theorem uwsub_of_le (a b : Nat) (hba : b ≤ a) (ha : a < U64) : uwsub a b = a - b := by
  rw [uwsub, show a + U64 - b = (a - b) + U64 from by omega, Nat.add_mod_right]
  exact Nat.mod_eq_of_lt (by omega)

/-- C9 counterexample: a rotated 2:1 portrait video (native `100 × 200`,
rotation 90) scaled for the atlas yields a pre-rotation target of
`(45, 87)`, hence an 87-pixel-wide frame after the rotation swap — wider
than the 80-pixel tile.  Blitting it panics at the very first pixel: the
letterbox offset `(80 - 87) / 2` wraps around, the destination index
lands far outside the canvas, and the unchecked write `out_data[di]`
panics (`none`). -/
theorem atlas_blit_oversize_panics :
    get_scaler_dims 100 200 80 90 (some 45) = some (45, 87) ∧
    blitFrame 80 (List.replicate 14400 0) 87 45 (List.replicate 15660 0) 0 = none := by
  refine ⟨rfl, ?_⟩
  rw [blitFrame]
  show blitPixels (List.replicate 15660 0) 87 80 9223372036854775804 0
    (List.replicate 14400 0) 0 3915 = none
  rw [show (3915 : Nat) = 3914 + 1 from rfl, blitPixels]
  have hstep : blitPixel (List.replicate 15660 0) 87 80 9223372036854775804 0
      (List.replicate 14400 0) 0 = none := by
    rw [blitPixel, if_neg (by omega)]
    show copyBytes (List.replicate 15660 0) (List.replicate 14400 0) 0
      18446744073709551600 4 = none
    rw [copyBytes, show (4 : Nat) = 3 + 1 from rfl, copyGo]
    rw [show (List.replicate 15660 (0 : Nat)).get? (uw (0 + 0)) = some 0 from rfl]
    dsimp only
    rw [show uw (18446744073709551600 + 0) = 18446744073709551600 from rfl]
    rw [wrByte, if_neg (by rw [List.length_replicate]; decide)]
  rw [hstep]

theorem blitPixel_fits (fw fh outW outH txo tyo i : Nat)
    (canvas frameData : List Nat)
    (hfw : fw ≤ 80) (hfh : fh ≤ 45) (houtWb : outW ≤ 800) (houtHb : outH ≤ 450)
    (htxo : txo + fw ≤ outW) (htyo : tyo + fh ≤ outH)
    (hcanvas : 4 * (outW * outH) ≤ canvas.length)
    (hframe : 4 * (fw * fh) ≤ frameData.length)
    (hi : i < fw * fh) :
    ∃ out, blitPixel frameData fw outW txo tyo canvas i = some out ∧
      out.length = canvas.length := by
  have hfw0 : 0 < fw := by
    rcases Nat.eq_zero_or_pos fw with h | h
    · rw [h] at hi; simp at hi
    · exact h
  have hx : i % fw < fw := Nat.mod_lt i hfw0
  have hy : i / fw < fh := by
    rw [Nat.div_lt_iff_lt_mul hfw0]
    rw [Nat.mul_comm] at hi
    exact hi
  have harea : fw * fh ≤ 3600 := Nat.mul_le_mul hfw hfh
  have houtA : outW * outH ≤ 360000 := Nat.mul_le_mul houtWb houtHb
  have hdx : txo + i % fw < outW := by omega
  have hdy : tyo + i / fw < outH := by omega
  have h2m : outW * (tyo + i / fw + 1) ≤ outW * outH := Nat.mul_le_mul_left _ (by omega)
  have h3m : outW * (tyo + i / fw + 1) = outW * (tyo + i / fw) + outW := by ring
  have hkey : (txo + i % fw) + outW * (tyo + i / fw) + 1 ≤ outW * outH := by omega
  have hU : (18446744073709551616 : Nat) = U64 := rfl
  have h1 : uw (tyo + i / fw) = tyo + i / fw := uw_small _ (by rw [← hU]; omega)
  have h2 : uw (outW * uw (tyo + i / fw)) = outW * (tyo + i / fw) := by
    rw [h1]; exact uw_small _ (by rw [← hU]; omega)
  have h3 : uw (txo + i % fw) = txo + i % fw := uw_small _ (by rw [← hU]; omega)
  have h4 : uw (uw (txo + i % fw) + uw (outW * uw (tyo + i / fw))) =
      (txo + i % fw) + outW * (tyo + i / fw) := by
    rw [h2, h3]; exact uw_small _ (by rw [← hU]; omega)
  have h5 : uw (uw (uw (txo + i % fw) + uw (outW * uw (tyo + i / fw))) * 4) =
      ((txo + i % fw) + outW * (tyo + i / fw)) * 4 := by
    rw [h4]; exact uw_small _ (by rw [← hU]; omega)
  have h6 : uw (i * 4) = i * 4 := uw_small _ (by rw [← hU]; omega)
  obtain ⟨out, hout, hlen, _, _⟩ :=
    copyGo_spec frameData (i * 4) (((txo + i % fw) + outW * (tyo + i / fw)) * 4) 4 0 canvas
      (by omega) (by omega) (by rw [U64]; omega) (by rw [U64]; omega)
  rw [blitPixel, if_neg (by omega), h5, h6, copyBytes]
  exact ⟨out, hout, hlen⟩

theorem blitPixels_fits (fw fh outW outH txo tyo : Nat) (frameData : List Nat)
    (hfw : fw ≤ 80) (hfh : fh ≤ 45) (houtWb : outW ≤ 800) (houtHb : outH ≤ 450)
    (htxo : txo + fw ≤ outW) (htyo : tyo + fh ≤ outH)
    (hframe : 4 * (fw * fh) ≤ frameData.length) :
    ∀ n i canvas, i + n ≤ fw * fh → 4 * (outW * outH) ≤ canvas.length →
      ∃ out, blitPixels frameData fw outW txo tyo canvas i n = some out ∧
        out.length = canvas.length := by
  intro n
  induction n with
  | zero => intro i canvas _ _; exact ⟨canvas, rfl, rfl⟩
  | succ n ih =>
    intro i canvas hin hcanvas
    obtain ⟨mid, hmid, hmidlen⟩ :=
      blitPixel_fits fw fh outW outH txo tyo i canvas frameData hfw hfh houtWb houtHb
        htxo htyo hcanvas hframe (by omega)
    obtain ⟨out, hout, hlen⟩ := ih (i + 1) mid (by omega) (by omega)
    refine ⟨out, ?_, by omega⟩
    rw [blitPixels, hmid]
    exact hout

/-- C9 (amended): the per-pixel copy of `get_video_atlas` has NO bounds
check — an out-of-range computed index panics, as an oversize frame
shows — but for every frame that fits its tile (width at most 80, height
at most 45) at a tile position below `tile_count ≤ 100`, on a canvas at
least as large as the allocation of `get_video_atlas`, every computed
destination index is in bounds and the whole blit completes without
panicking, preserving the canvas length. -/
theorem atlas_blit_fits_in_bounds (tc tp fw fh : Nat) (canvas frameData : List Nat)
    (hfw : fw ≤ ATLAS_TILE_WIDTH) (hfh : fh ≤ ATLAS_TILE_HEIGHT)
    (htp : tp < tc) (htc : tc ≤ 100)
    (hcanvas : 4 * ((atlasCanvasDims tc).1 * (atlasCanvasDims tc).2) ≤ canvas.length)
    (hframe : 4 * (fw * fh) ≤ frameData.length) :
    ∃ out, blitFrame (atlasCanvasDims tc).1 canvas fw fh frameData tp = some out ∧
      out.length = canvas.length := by
  rw [ATLAS_TILE_WIDTH] at hfw
  rw [ATLAS_TILE_HEIGHT] at hfh
  have hdims1 : (atlasCanvasDims tc).1 = 80 * min tc 10 := rfl
  have hdims2 : (atlasCanvasDims tc).2 = 45 * min (tc / 10 + 1) 10 := rfl
  have htx : tp % 10 + 1 ≤ min tc 10 := by omega
  have hty : tp / 10 + 1 ≤ min (tc / 10 + 1) 10 := by omega
  have hU : (18446744073709551616 : Nat) = U64 := rfl
  have hsubw : uwsub ATLAS_TILE_WIDTH fw = 80 - fw :=
    uwsub_of_le 80 fw hfw (by rw [← hU]; omega)
  have hsubh : uwsub ATLAS_TILE_HEIGHT fh = 45 - fh :=
    uwsub_of_le 45 fh hfh (by rw [← hU]; omega)
  have htxo : uw (uw (tp % MAX_ATLAS_TILE_WIDTH * ATLAS_TILE_WIDTH) +
      uwsub ATLAS_TILE_WIDTH fw / 2) = tp % 10 * 80 + (80 - fw) / 2 := by
    rw [hsubw, MAX_ATLAS_TILE_WIDTH, ATLAS_TILE_WIDTH,
      uw_small (tp % 10 * 80) (by rw [← hU]; omega)]
    exact uw_small _ (by rw [← hU]; omega)
  have htyo : uw (uw (tp / MAX_ATLAS_TILE_HEIGHT * ATLAS_TILE_HEIGHT) +
      uwsub ATLAS_TILE_HEIGHT fh / 2) = tp / 10 * 45 + (45 - fh) / 2 := by
    rw [hsubh, MAX_ATLAS_TILE_HEIGHT, ATLAS_TILE_HEIGHT,
      uw_small (tp / 10 * 45) (by rw [← hU]; omega)]
    exact uw_small _ (by rw [← hU]; omega)
  have harea : uw (fw * fh) = fw * fh :=
    uw_small _ (by rw [← hU]; have := Nat.mul_le_mul hfw hfh; omega)
  obtain ⟨out, hout, hlen⟩ :=
    blitPixels_fits fw fh (80 * min tc 10) (45 * min (tc / 10 + 1) 10)
      (tp % 10 * 80 + (80 - fw) / 2) (tp / 10 * 45 + (45 - fh) / 2) frameData
      hfw hfh (by omega) (by omega) (by omega) (by omega) hframe
      (fw * fh) 0 canvas (by omega) (by rw [← hdims1, ← hdims2]; exact hcanvas)
  refine ⟨out, ?_, hlen⟩
  rw [blitFrame, htxo, htyo, harea, hdims1]
  exact hout

/-- C9 witness: a frame that exactly fills its tile on a one-tile canvas
blits without panicking. -/
theorem atlas_blit_fits_in_bounds_witness :
    80 ≤ ATLAS_TILE_WIDTH ∧ 45 ≤ ATLAS_TILE_HEIGHT ∧ (0 : Nat) < 1 ∧
    ∃ out, blitFrame (atlasCanvasDims 1).1 (List.replicate 14400 0) 80 45
      (List.replicate 14400 0) 0 = some out ∧
      out.length = (List.replicate 14400 (0 : Nat)).length :=
  ⟨by decide, by decide, by decide,
    atlas_blit_fits_in_bounds 1 0 80 45 _ _ (by decide) (by decide) (by decide)
      (by decide) (by rw [List.length_replicate]; decide) (by rw [List.length_replicate])⟩

end Fylvur
